import Mathlib

/-!
Shallow embedding of the BIMFlow BCF MVP frontend core: the Zustand store
(src/frontend/src/store/bcfStore.ts), the upload/inspection page
(src/unnamed/part_000), the merge API client (src/unnamed/part_001), the
merge trigger (src/frontend/src/pages/Issues.tsx), and the upload
validation (src/frontend/src/components/Dropzone.tsx).

JavaScript Map objects are modelled as association lists in insertion
order: Map.set replaces the value of an existing key in place (keeping
its original insertion position) and appends a fresh key at the end;
Map.delete removes the entry; iteration (forEach) visits entries in
insertion order.
-/

/-- Mirrors the BCFComment interface of bcfStore.ts. -/
structure BCFComment where
  guid : Option String
  author : String
  date : String
  text : String
deriving DecidableEq, Repr

/-- Mirrors the BCFIssue interface of bcfStore.ts. -/
structure BCFIssue where
  guid : String
  title : String
  status : String
  priority : String
  author : String
  createdAt : String
  description : Option String
  comments : List BCFComment
  viewpoints : List String
  snapshotUrl : Option String
  fileName : String
deriving DecidableEq, Repr

/-- The browser File handle: only its name and size are observable to the
code under verification. -/
structure File where
  name : String
  size : Nat
deriving DecidableEq, Repr

/-- Mirrors the UploadedFile interface of bcfStore.ts. -/
structure UploadedFile where
  file : File
  issues : List BCFIssue
  inspected : Bool
deriving DecidableEq, Repr

/-- The data fields of the Zustand BCFState (bcfStore.ts). `uploadedFiles`
is the insertion-ordered Map modelled as an association list. -/
structure BCFState where
  uploadedFiles : List (String × UploadedFile)
  allIssues : List BCFIssue
  selectedIssue : Option BCFIssue
  isInspecting : Bool
  isMerging : Bool
deriving DecidableEq, Repr

/-- JavaScript Map.get on the insertion-ordered association list. -/
def mapGet : List (String × UploadedFile) → String → Option UploadedFile
  | [], _ => none
  | (k, v) :: rest, n => if k = n then some v else mapGet rest n

/-- JavaScript Map.set: replace in place when the key exists (keeping its
insertion position), otherwise append at the end. -/
def mapSet : List (String × UploadedFile) → String → UploadedFile → List (String × UploadedFile)
  | [], n, v => [(n, v)]
  | (k, w) :: rest, n, v => if k = n then (n, v) :: rest else (k, w) :: mapSet rest n v

/-- JavaScript Map.delete: drop the entry with the given key. -/
def mapDelete : List (String × UploadedFile) → String → List (String × UploadedFile)
  | [], _ => []
  | (k, w) :: rest, n => if k = n then rest else (k, w) :: mapDelete rest n

/-- The aggregation loop shared by setFileIssues and removeFile
(bcfStore.ts lines 79-83 and 110-114): visit every entry in insertion
order and push all its issues. -/
def aggregate (m : List (String × UploadedFile)) : List BCFIssue :=
  (m.map fun p => p.2.issues).flatten

/-- Initial store state (bcfStore.ts lines 49-53). -/
def initialState : BCFState :=
  { uploadedFiles := []
    allIssues := []
    selectedIssue := none
    isInspecting := false
    isMerging := false }

/-- addUploadedFile (bcfStore.ts lines 55-65): upsert a placeholder entry;
allIssues is NOT recomputed by this action. -/
def addUploadedFile (file : File) (s : BCFState) : BCFState :=
  { s with
    uploadedFiles := mapSet s.uploadedFiles file.name
      { file := file, issues := [], inspected := false } }

/-- The map update performed by setFileIssues (bcfStore.ts lines 69-77):
if an entry for the name exists, replace its issues and set
inspected := true; otherwise leave the map as it is. -/
def updateFileIssues (fileName : String) (issues : List BCFIssue)
    (m : List (String × UploadedFile)) : List (String × UploadedFile) :=
  match mapGet m fileName with
  | some fileData => mapSet m fileName { fileData with issues := issues, inspected := true }
  | none => m

/-- setFileIssues (bcfStore.ts lines 67-87): guarded update of the entry,
then unconditional recomputation of allIssues from the new map. -/
def setFileIssues (fileName : String) (issues : List BCFIssue) (s : BCFState) : BCFState :=
  let newFiles := updateFileIssues fileName issues s.uploadedFiles
  { s with uploadedFiles := newFiles, allIssues := aggregate newFiles }

/-- setSelectedIssue (bcfStore.ts lines 89-91). -/
def setSelectedIssue (issue : Option BCFIssue) (s : BCFState) : BCFState :=
  { s with selectedIssue := issue }

/-- setIsInspecting (bcfStore.ts lines 93-95): a plain boolean write. -/
def setIsInspecting (b : Bool) (s : BCFState) : BCFState :=
  { s with isInspecting := b }

/-- setIsMerging (bcfStore.ts lines 97-99). -/
def setIsMerging (b : Bool) (s : BCFState) : BCFState :=
  { s with isMerging := b }

/-- clearFiles (bcfStore.ts lines 101-103). -/
def clearFiles (s : BCFState) : BCFState :=
  { s with uploadedFiles := [], allIssues := [], selectedIssue := none }

/-- removeFile (bcfStore.ts lines 105-118): delete the entry, then
recompute allIssues from the new map. -/
def removeFile (fileName : String) (s : BCFState) : BCFState :=
  let newFiles := mapDelete s.uploadedFiles fileName
  { s with uploadedFiles := newFiles, allIssues := aggregate newFiles }

/-- The aggregate invariant: the stored allIssues equals the concatenation,
in map insertion order, of every registered entry's issue list. -/
def AggInv (s : BCFState) : Prop :=
  s.allIssues = aggregate s.uploadedFiles

theorem aggregate_nil : aggregate [] = [] := rfl

theorem aggregate_cons (p : String × UploadedFile) (m : List (String × UploadedFile)) :
    aggregate (p :: m) = p.2.issues ++ aggregate m := by
  simp [aggregate]

theorem aggregate_append (l1 l2 : List (String × UploadedFile)) :
    aggregate (l1 ++ l2) = aggregate l1 ++ aggregate l2 := by
  simp [aggregate]

theorem mapGet_nil (n : String) : mapGet [] n = none := rfl

/-- Replacing a registered entry whose issue list is empty with a fresh
placeholder does not change the aggregate. -/
theorem aggregate_mapSet_placeholder (m : List (String × UploadedFile)) (n : String) (f : File)
    (h : ∀ e, mapGet m n = some e → e.issues = []) :
    aggregate (mapSet m n { file := f, issues := [], inspected := false }) = aggregate m := by
  induction m with
  | nil => simp [mapSet, aggregate]
  | cons p rest ih =>
    obtain ⟨k, v⟩ := p
    by_cases hk : k = n
    · subst hk
      have hv : v.issues = [] := h v (by simp [mapGet])
      simp [mapSet, aggregate_cons, hv]
    · have hrest : ∀ e, mapGet rest n = some e → e.issues = [] := by
        intro e he
        exact h e (by simp [mapGet, hk, he])
      simp [mapSet, hk, aggregate_cons, ih hrest]

/-!
Upload page semantics (src/unnamed/part_000). `handleFilesAccepted` calls
addUploadedFile(file) and then the synchronous prefix of inspectFile(file),
which adds the name to the local inspectingFiles set and sets the store
flag isInspecting to true, then suspends awaiting the inspection service.
When an inspection settles, the resumed code runs atomically: on success
setFileIssues(name, issues) and then the finally block, on failure only
the finally block; the finally block removes the name from inspectingFiles
and unconditionally sets isInspecting to false. Under the single-threaded
cooperative scheduling of the browser these resumptions interleave at
whole-step granularity, which the step function below reproduces.
-/

/-- JavaScript Set.add: append if not already present. -/
def setAdd (n : String) (l : List String) : List String :=
  if l.contains n then l else l ++ [n]

/-- JavaScript Set.delete: remove the element, keeping order. -/
def setDelete (n : String) (l : List String) : List String :=
  l.filter fun m => m ≠ n

/-- Component state of the Upload page: the store plus the local
inspectingFiles set (src/unnamed/part_000 line 31). -/
structure AppState where
  store : BCFState
  inspectingFiles : List String
deriving DecidableEq, Repr

/-- The atomic scheduler-visible steps of the Upload page. -/
inductive Event where
  | upload (f : File)
  | settleSuccess (name : String) (issues : List BCFIssue)
  | settleFailure (name : String)
deriving DecidableEq, Repr

/-- One atomic step (src/unnamed/part_000 lines 33-66): upload runs
addUploadedFile plus the synchronous prefix of inspectFile; a settlement
runs setFileIssues (success only) followed by the finally block. -/
def appStep (s : AppState) : Event → AppState
  | Event.upload f =>
    { store := setIsInspecting true (addUploadedFile f s.store)
      inspectingFiles := setAdd f.name s.inspectingFiles }
  | Event.settleSuccess n issues =>
    { store := setIsInspecting false (setFileIssues n issues s.store)
      inspectingFiles := setDelete n s.inspectingFiles }
  | Event.settleFailure n =>
    { store := setIsInspecting false s.store
      inspectingFiles := setDelete n s.inspectingFiles }

/-- Run a sequence of atomic steps. -/
def runEvents (s : AppState) (es : List Event) : AppState :=
  es.foldl appStep s

/-- Fresh page over the fresh store. -/
def initialApp : AppState :=
  { store := initialState, inspectingFiles := [] }

/-!
Merge trigger (src/frontend/src/pages/Issues.tsx lines 43-76). The
synchronous prefix of handleMerge snapshots the registered file handles;
with fewer than two it reports a validation error and returns before any
network call and before any state write; otherwise it sets isMerging and
proceeds to the network call.
-/

/-- Outcome of the synchronous prefix of handleMerge: either the
validation error (no network call), or the merge request is issued with
the snapshotted file handles. -/
inductive MergeAction where
  | validationError
  | callMerge (files : List File)
deriving DecidableEq, Repr

/-- handleMerge up to its first suspension point (Issues.tsx lines 43-52). -/
def handleMergeStart (s : BCFState) : MergeAction × BCFState :=
  let files := s.uploadedFiles.map fun p => p.2.file
  if files.length < 2 then (MergeAction.validationError, s)
  else (MergeAction.callMerge files, setIsMerging true s)

/-!
Upload validation (src/frontend/src/components/Dropzone.tsx). The Upload
page instantiates Dropzone without a maxFiles prop, so maxFiles = 10.
-/

/-- Dropzone maxFiles default (Dropzone.tsx line 15). -/
def maxFiles : Nat := 10

/-- ASCII lowercasing of a character list (JavaScript toLowerCase on the
file names considered here). -/
def lowerChars (l : List Char) : List Char :=
  l.map Char.toLower

/-- JavaScript String.split(".") on a character list: the maximal
dot-free segments, with empty segments kept. -/
def splitOnDot : List Char → List (List Char)
  | [] => [[]]
  | c :: rest =>
    let r := splitOnDot rest
    if c = Char.ofNat 46 then [] :: r
    else
      match r with
      | h :: t => (c :: h) :: t
      | [] => [[c]]

/-- file.name.toLowerCase().split(".").pop() (Dropzone.tsx line 31). -/
def extensionOf (name : String) : String :=
  String.mk ((splitOnDot (lowerChars name.data)).getLastD [])

/-- Result record of validateFiles. -/
structure ValidationResult where
  valid : List File
  errors : List String
deriving DecidableEq, Repr

/-- The per-file body of the validateFiles forEach loop
(Dropzone.tsx lines 30-39). -/
def validateStep (acc : ValidationResult) (file : File) : ValidationResult :=
  let extension := extensionOf file.name
  if ¬ (extension = "bcf" ∨ extension = "bcfzip") then
    { acc with errors := acc.errors ++
        [file.name ++ ": Invalid file type. Only .bcf and .bcfzip files are accepted."] }
  else if file.size > 100 * 1024 * 1024 then
    { acc with errors := acc.errors ++
        [file.name ++ ": File too large. Maximum size is 100MB."] }
  else
    { acc with valid := acc.valid ++ [file] }

/-- validateFiles (Dropzone.tsx lines 21-42): reject the whole batch when
it exceeds maxFiles, otherwise classify each file in submission order. -/
def validateFiles (files : List File) : ValidationResult :=
  if files.length > maxFiles then
    { valid := [], errors := ["Maximum " ++ toString maxFiles ++ " files allowed"] }
  else
    files.foldl validateStep { valid := [], errors := [] }

/-- The acceptance condition of one file in validateFiles: valid
extension and size at most 100MB. -/
def fileAccepted (f : File) : Bool :=
  decide ((extensionOf f.name = "bcf" ∨ extensionOf f.name = "bcfzip")
    ∧ f.size ≤ 100 * 1024 * 1024)

/-- Modelled from the spec and claim wording: a file name "whose extension
is .bcf or .bcfzip (case-insensitive)" is one whose lowercased name ends
with the suffix ".bcf" or ".bcfzip". Used only to compare the claim
against the source acceptance condition. -/
def specHasBcfExtension (name : String) : Bool :=
  (".bcf".data.isSuffixOf (lowerChars name.data))
    || (".bcfzip".data.isSuffixOf (lowerChars name.data))

/-- Concrete fixtures used by counterexamples and witnesses. -/
def fileA : File := { name := "a.bcf", size := 10 }

def fileB : File := { name := "b.bcf", size := 20 }

def issueOld : BCFIssue :=
  { guid := "guid-1", title := "Clash in level 2", status := "Open", priority := "High"
    author := "alice", createdAt := "2024-01-01", description := none
    comments := [], viewpoints := [], snapshotUrl := none, fileName := "a.bcf" }

def issueB1 : BCFIssue :=
  { guid := "guid-2", title := "Missing door", status := "Open", priority := "Low"
    author := "bob", createdAt := "2024-01-02", description := none
    comments := [], viewpoints := [], snapshotUrl := none, fileName := "b.bcf" }

/-!
Helper lemmas: a structural reformulation of the guarded update of
setFileIssues, used to prove commutation, and splitting lemmas for
mapGet/mapDelete.
-/

/-- Structural form of the guarded update of setFileIssues: rewrite the
first entry with the given key in place, leave everything else alone. -/
def applyIssues (n : String) (iss : List BCFIssue) :
    List (String × UploadedFile) → List (String × UploadedFile)
  | [] => []
  | (k, v) :: rest =>
    if k = n then (n, { v with issues := iss, inspected := true }) :: rest
    else (k, v) :: applyIssues n iss rest

theorem applyIssues_of_get_none (n : String) (iss : List BCFIssue) :
    ∀ m, mapGet m n = none → applyIssues n iss m = m := by
  intro m
  induction m with
  | nil => intro _; rfl
  | cons p rest ih =>
    obtain ⟨k, v⟩ := p
    intro h
    by_cases hk : k = n
    · simp [mapGet, hk] at h
    · simp [mapGet, hk] at h
      simp [applyIssues, hk, ih h]

theorem updateFileIssues_eq_applyIssues (n : String) (iss : List BCFIssue) :
    ∀ m, updateFileIssues n iss m = applyIssues n iss m := by
  intro m
  induction m with
  | nil => rfl
  | cons p rest ih =>
    obtain ⟨k, v⟩ := p
    by_cases hk : k = n
    · subst hk
      simp [updateFileIssues, mapGet, mapSet, applyIssues]
    · cases hrest : mapGet rest n with
      | some fd =>
        have h2 : updateFileIssues n iss rest
            = mapSet rest n { fd with issues := iss, inspected := true } := by
          simp [updateFileIssues, hrest]
        simp [updateFileIssues, mapGet, hk, hrest, mapSet, applyIssues]
        rw [← h2, ih]
      | none =>
        simp [updateFileIssues, mapGet, hk, hrest, applyIssues,
          applyIssues_of_get_none n iss rest hrest]

theorem applyIssues_comm (a b : String) (ia ib : List BCFIssue) (hab : a ≠ b) :
    ∀ m, applyIssues b ib (applyIssues a ia m) = applyIssues a ia (applyIssues b ib m) := by
  intro m
  induction m with
  | nil => rfl
  | cons p rest ih =>
    obtain ⟨k, v⟩ := p
    by_cases hka : k = a
    · subst hka
      simp [applyIssues, hab, Ne.symm hab]
    · by_cases hkb : k = b
      · subst hkb
        simp [applyIssues, hka, hab, Ne.symm hab]
      · simp [applyIssues, hka, hkb, ih]

theorem mapGet_split (m : List (String × UploadedFile)) (n : String) (e : UploadedFile)
    (h : mapGet m n = some e) :
    ∃ l1 l2, m = l1 ++ (n, e) :: l2 ∧ ∀ p ∈ l1, p.1 ≠ n := by
  induction m with
  | nil => simp [mapGet] at h
  | cons p rest ih =>
    obtain ⟨k, v⟩ := p
    by_cases hk : k = n
    · subst hk
      simp [mapGet] at h
      subst h
      exact ⟨[], rest, rfl, by simp⟩
    · simp [mapGet, hk] at h
      obtain ⟨l1, l2, heq, hne⟩ := ih h
      refine ⟨(k, v) :: l1, l2, by simp [heq], ?_⟩
      intro q hq
      rcases List.mem_cons.mp hq with hq | hq
      · subst hq; exact hk
      · exact hne q hq

theorem mapDelete_of_split (l1 l2 : List (String × UploadedFile)) (n : String) (e : UploadedFile)
    (h : ∀ p ∈ l1, p.1 ≠ n) :
    mapDelete (l1 ++ (n, e) :: l2) n = l1 ++ l2 := by
  induction l1 with
  | nil => simp [mapDelete]
  | cons p rest ih =>
    obtain ⟨k, v⟩ := p
    have hk : k ≠ n := h (k, v) (by simp)
    simp [mapDelete, hk]
    exact ih fun q hq => h q (by simp [hq])

/-- C1 (amended): the stored aggregate equals the ordered concatenation of
the registered archives' issue lists after every setFileIssues, removeFile
and clearFiles; addUploadedFile does not recompute allIssues, so it
preserves the invariant exactly when the registered entry it replaces (if
any) has an empty issue list. -/
theorem aggregate_invariant_ops :
    (∀ s n iss, AggInv (setFileIssues n iss s)) ∧
    (∀ s n, AggInv (removeFile n s)) ∧
    (∀ s, AggInv (clearFiles s)) ∧
    (∀ s f, AggInv s → (∀ e, mapGet s.uploadedFiles f.name = some e → e.issues = []) →
      AggInv (addUploadedFile f s)) := by
  refine ⟨?_, ?_, ?_, ?_⟩
  · intro s n iss
    simp [AggInv, setFileIssues]
  · intro s n
    simp [AggInv, removeFile]
  · intro s
    simp [AggInv, clearFiles, aggregate]
  · intro s f hinv hemp
    simpa [AggInv, addUploadedFile, aggregate_mapSet_placeholder _ _ _ hemp] using hinv

/-- Witness for C1: a fresh registration on the empty store preserves the
aggregate invariant. -/
theorem aggregate_invariant_ops_witness : AggInv (addUploadedFile fileA initialState) :=
  aggregate_invariant_ops.2.2.2 initialState fileA rfl (by simp [mapGet, initialState])

/-- C1 counterexample: after registering a.bcf, recording one issue for
it, and re-registering a.bcf, the stored allIssues still holds the old
issue while the concatenation of the registered entries' issue lists is
empty — the claimed invariant fails after an addUploadedFile mutation. -/
theorem aggregate_stale_after_reregistration :
    (addUploadedFile fileA (setFileIssues "a.bcf" [issueOld]
        (addUploadedFile fileA initialState))).allIssues = [issueOld] ∧
    ¬ AggInv (addUploadedFile fileA (setFileIssues "a.bcf" [issueOld]
        (addUploadedFile fileA initialState))) := by
  constructor
  · decide
  · simp only [AggInv]
    decide

/-- C2 (code bug): start inspections for a.bcf and b.bcf, then let a.bcf
settle while b.bcf is still outstanding. The outstanding set still holds
b.bcf, yet the finally block of the first settlement has already reset the
plain boolean isInspecting to false — it does not remain true while an
inspection is outstanding. -/
theorem isInspecting_false_while_outstanding :
    (runEvents initialApp [Event.upload fileA, Event.upload fileB,
        Event.settleSuccess "a.bcf" [issueOld]]).inspectingFiles = ["b.bcf"] ∧
    (runEvents initialApp [Event.upload fileA, Event.upload fileB,
        Event.settleSuccess "a.bcf" [issueOld]]).store.isInspecting = false := by
  decide

/-- C3 (code bug): re-registering a.bcf resets its entry to an empty,
uninspected placeholder (first conjunct), but when the inspection launched
for the prior entry settles after the re-registration, its existence check
still finds the key and applies the stale issues to the new entry (second
conjunct). -/
theorem stale_result_applied_after_reregistration :
    (mapGet (runEvents initialApp [Event.upload fileA,
        Event.settleSuccess "a.bcf" [issueOld], Event.upload fileA]).store.uploadedFiles "a.bcf"
      = some { file := fileA, issues := [], inspected := false }) ∧
    (mapGet (runEvents initialApp [Event.upload fileA, Event.upload fileA,
        Event.settleSuccess "a.bcf" [issueOld]]).store.uploadedFiles "a.bcf"
      = some { file := fileA, issues := [issueOld], inspected := true }) := by
  decide

/-- C4: when two distinct archives are registered, applying their two
inspection results in either order yields the same final store state —
the same registry map in the same insertion order and the same aggregate. -/
theorem setFileIssues_comm (s : BCFState) (a b : String) (ia ib : List BCFIssue)
    (hab : a ≠ b) (ha : (mapGet s.uploadedFiles a).isSome)
    (hb : (mapGet s.uploadedFiles b).isSome) :
    setFileIssues b ib (setFileIssues a ia s) = setFileIssues a ia (setFileIssues b ib s) := by
  have h := applyIssues_comm a b ia ib hab s.uploadedFiles
  simp [setFileIssues, updateFileIssues_eq_applyIssues, h]

/-- State with a.bcf and b.bcf registered, uninspected. -/
def twoFilesState : BCFState := addUploadedFile fileB (addUploadedFile fileA initialState)

/-- Witness for C4 at a concrete two-archive state. -/
theorem setFileIssues_comm_witness :
    setFileIssues "b.bcf" [issueB1] (setFileIssues "a.bcf" [issueOld] twoFilesState)
      = setFileIssues "a.bcf" [issueOld] (setFileIssues "b.bcf" [issueB1] twoFilesState) :=
  setFileIssues_comm twoFilesState "a.bcf" "b.bcf" [issueOld] [issueB1]
    (by decide) (by decide) (by decide)

/-- C5: applying an inspection result for a name that is not registered
leaves the registry map unchanged — no entry is added and no entry is
modified. -/
theorem setFileIssues_absent_noop (s : BCFState) (n : String) (iss : List BCFIssue)
    (h : mapGet s.uploadedFiles n = none) :
    (setFileIssues n iss s).uploadedFiles = s.uploadedFiles := by
  simp [setFileIssues, updateFileIssues, h]

/-- Witness for C5: a result for an unregistered name is a registry no-op
on a concrete state. -/
theorem setFileIssues_absent_noop_witness :
    (setFileIssues "c.bcf" [issueOld] twoFilesState).uploadedFiles
      = twoFilesState.uploadedFiles :=
  setFileIssues_absent_noop twoFilesState "c.bcf" [issueOld] (by decide)

/-- C6: invoking the merge trigger with fewer than two registered archives
stops at the validation check: the outcome is the validation error (no
merge request is issued) and the state is returned unchanged, so
uploadedFiles, allIssues and isMerging are all untouched. -/
theorem handleMerge_too_few (s : BCFState) (h : s.uploadedFiles.length < 2) :
    (handleMergeStart s).1 = MergeAction.validationError ∧ (handleMergeStart s).2 = s := by
  simp [handleMergeStart, h]

/-- Witness for C6 on the one-archive store. -/
theorem handleMerge_too_few_witness :
    (handleMergeStart (addUploadedFile fileA initialState)).1 = MergeAction.validationError ∧
    (handleMergeStart (addUploadedFile fileA initialState)).2
      = addUploadedFile fileA initialState :=
  handleMerge_too_few (addUploadedFile fileA initialState) (by decide)

/-- C7: removing a registered archive removes exactly its issues: the
registry splits around the removed entry, removeFile keeps the two
surrounding segments with their entries, order and content unchanged, and
the recomputed aggregate is the concatenation of the remaining segments,
while the aggregate of the original map placed exactly the removed
archive's issues between them. -/
theorem removeFile_frame (s : BCFState) (n : String) (e : UploadedFile)
    (h : mapGet s.uploadedFiles n = some e) :
    ∃ l1 l2, s.uploadedFiles = l1 ++ (n, e) :: l2 ∧ (∀ p ∈ l1, p.1 ≠ n) ∧
      (removeFile n s).uploadedFiles = l1 ++ l2 ∧
      (removeFile n s).allIssues = aggregate l1 ++ aggregate l2 ∧
      aggregate s.uploadedFiles = aggregate l1 ++ (e.issues ++ aggregate l2) := by
  obtain ⟨l1, l2, heq, hne⟩ := mapGet_split _ _ _ h
  refine ⟨l1, l2, heq, hne, ?_, ?_, ?_⟩
  · simp [removeFile, heq, mapDelete_of_split _ _ _ _ hne]
  · simp [removeFile, heq, mapDelete_of_split _ _ _ _ hne, aggregate_append]
  · simp [heq, aggregate_append, aggregate_cons]

/-- State in which both registered archives carry their inspection
results. -/
def bothInspected : BCFState :=
  setFileIssues "b.bcf" [issueB1] (setFileIssues "a.bcf" [issueOld] twoFilesState)

/-- Witness for C7: removing a.bcf from the fully inspected two-archive
state. -/
theorem removeFile_frame_witness :
    ∃ l1 l2, bothInspected.uploadedFiles
        = l1 ++ ("a.bcf", { file := fileA, issues := [issueOld], inspected := true }) :: l2 ∧
      (∀ p ∈ l1, p.1 ≠ "a.bcf") ∧
      (removeFile "a.bcf" bothInspected).uploadedFiles = l1 ++ l2 ∧
      (removeFile "a.bcf" bothInspected).allIssues = aggregate l1 ++ aggregate l2 ∧
      aggregate bothInspected.uploadedFiles
        = aggregate l1 ++ ([issueOld] ++ aggregate l2) :=
  removeFile_frame bothInspected "a.bcf"
    { file := fileA, issues := [issueOld], inspected := true } (by decide)

/-- C9: neither removeFile nor addUploadedFile touches the selection:
with an issue owned by the mutated archive selected, the selection still
holds that very issue after the archive is removed or re-registered. -/
theorem selection_survives_registry_mutation (s : BCFState) (i : BCFIssue) (n : String)
    (f : File) (hsel : s.selectedIssue = some i) (hown : i.fileName = n) (hf : f.name = n) :
    (removeFile n s).selectedIssue = some i ∧
    (addUploadedFile f s).selectedIssue = some i := by
  simp [removeFile, addUploadedFile, hsel]

/-- Witness for C9: select the issue of a.bcf, then remove or re-register
a.bcf. -/
theorem selection_survives_registry_mutation_witness :
    (removeFile "a.bcf" (setSelectedIssue (some issueOld) bothInspected)).selectedIssue
      = some issueOld ∧
    (addUploadedFile fileA (setSelectedIssue (some issueOld) bothInspected)).selectedIssue
      = some issueOld :=
  selection_survives_registry_mutation (setSelectedIssue (some issueOld) bothInspected)
    issueOld "a.bcf" fileA rfl rfl rfl

theorem validateStep_foldl (files : List File) :
    ∀ acc : ValidationResult,
      (files.foldl validateStep acc).valid = acc.valid ++ files.filter fileAccepted := by
  induction files with
  | nil => intro acc; simp
  | cons f rest ih =>
    intro acc
    by_cases hext : extensionOf f.name = "bcf" ∨ extensionOf f.name = "bcfzip"
    · by_cases hsize : f.size > 100 * 1024 * 1024
      · have hacc : fileAccepted f = false := by
          simp only [fileAccepted, decide_eq_false_iff_not]
          intro hc
          exact absurd hc.2 (Nat.not_le_of_lt hsize)
        simp [validateStep, hext, Nat.not_le_of_lt hsize, hsize, ih, hacc]
      · have hacc : fileAccepted f = true := by
          simp only [fileAccepted, decide_eq_true_eq]
          exact ⟨hext, Nat.le_of_not_lt hsize⟩
        simp [validateStep, hext, hsize, ih, hacc]
    · have hacc : fileAccepted f = false := by
        simp only [fileAccepted, decide_eq_false_iff_not]
        intro hc
        exact hext hc.1
      simp [validateStep, hext, ih, hacc]

/-- C10 (amended): a batch of more than 10 files is rejected wholesale;
a batch of at most 10 files accepts, in submission order, exactly the
files whose lowercased name has final dot-separated component bcf or
bcfzip and whose size is at most 100MB. -/
theorem validateFiles_spec (files : List File) :
    (files.length > 10 → (validateFiles files).valid = []) ∧
    (files.length ≤ 10 → (validateFiles files).valid = files.filter fileAccepted) := by
  constructor
  · intro h
    simp [validateFiles, maxFiles, h]
  · intro h
    have h2 : ¬ files.length > maxFiles := by
      simp only [maxFiles]
      omega
    simp [validateFiles, h2, validateStep_foldl]

/-- Witness for C10 on a concrete two-file batch: the oversized file is
dropped, the small one accepted. -/
theorem validateFiles_spec_witness :
    (validateFiles [fileA, { name := "big.bcfzip", size := 200 * 1024 * 1024 }]).valid
      = [fileA, { name := "big.bcfzip", size := 200 * 1024 * 1024 }].filter fileAccepted :=
  (validateFiles_spec [fileA, { name := "big.bcfzip", size := 200 * 1024 * 1024 }]).2
    (by decide)

/-- C10 counterexample: a file whose name is the bare string bcf has no
".bcf"/".bcfzip" suffix — no dot at all — yet split(".").pop() returns the
whole name, so validateFiles accepts it; acceptance is therefore not
exactly the files with a .bcf/.bcfzip extension. -/
theorem validateFiles_accepts_dotless_name :
    (validateFiles [{ name := "bcf", size := 5 }]).valid = [{ name := "bcf", size := 5 }] ∧
    specHasBcfExtension "bcf" = false := by
  decide

/-!
Merge download-name derivation (src/unnamed/part_001 lines 56-81 and
src/frontend/src/pages/Issues.tsx lines 54-63). mergeBcfs reads the
Content-Disposition header (empty string when absent), tries the extended
regex filename*=UTF-8 followed by two apostrophes and a nonempty run of
non-semicolon characters, then the plain regex filename= with an optional
quote and a nonempty run of characters that are neither quote nor
semicolon, both case-insensitive; a successful capture is passed through
decodeURIComponent, keeping the raw capture when decoding throws, and the
absence of both matches leaves the fixed default merged.bcfzip.
handleMerge then uses the returned name, generating merged-TIMESTAMP
.bcfzip only when the returned name is the empty string.
-/

/-- The apostrophe character (code 39). -/
def apos : Char := Char.ofNat 39

/-- The double-quote character (code 34). -/
def quoteChar : Char := Char.ofNat 34

/-- Lowercased literal of the extended-form regex. -/
def pat1 : List Char :=
  ['f', 'i', 'l', 'e', 'n', 'a', 'm', 'e', '*', '=', 'u', 't', 'f', '-', '8', apos, apos]

/-- Lowercased literal of the plain-form regex. -/
def pat2 : List Char := ['f', 'i', 'l', 'e', 'n', 'a', 'm', 'e', '=']

/-- Case-insensitive literal match at the head of the input, returning the
remainder on success. -/
def matchLit : List Char → List Char → Option (List Char)
  | [], s => some s
  | _ :: _, [] => none
  | p :: ps, c :: cs => if c.toLower = p then matchLit ps cs else none

/-- First match of the extended-form regex over the whole input: at each
position, the literal must match and be followed by at least one
non-semicolon character; the capture is the maximal such run. -/
def scan1 : List Char → Option (List Char)
  | [] => none
  | c :: rest =>
    match matchLit pat1 (c :: rest) with
    | some after =>
      let cap := after.takeWhile fun ch => ch != ';'
      if cap.isEmpty then scan1 rest else some cap
    | none => scan1 rest

/-- First match of the plain-form regex over the whole input: the literal,
an optional opening quote, then at least one character that is neither a
quote nor a semicolon; the capture is the maximal such run. -/
def scan2 : List Char → Option (List Char)
  | [] => none
  | c :: rest =>
    match matchLit pat2 (c :: rest) with
    | some after =>
      let body :=
        match after with
        | q :: t => if q = quoteChar then t else q :: t
        | [] => []
      let cap := body.takeWhile fun ch => ch != quoteChar && ch != ';'
      if cap.isEmpty then scan2 rest else some cap
    | none => scan2 rest

/-- Hexadecimal digit value, as in percent-escapes. -/
def hexDigit (c : Char) : Option Nat :=
  if 48 ≤ c.toNat ∧ c.toNat ≤ 57 then some (c.toNat - 48)
  else if 65 ≤ c.toNat ∧ c.toNat ≤ 70 then some (c.toNat - 55)
  else if 97 ≤ c.toNat ∧ c.toNat ≤ 102 then some (c.toNat - 87)
  else none

/-- UTF-8 encoding of one character. -/
def charUtf8 (c : Char) : List Nat :=
  let n := c.toNat
  if n < 128 then [n]
  else if n < 2048 then [192 + n / 64, 128 + n % 64]
  else if n < 65536 then [224 + n / 4096, 128 + n / 64 % 64, 128 + n % 64]
  else [240 + n / 262144, 128 + n / 4096 % 64, 128 + n / 64 % 64, 128 + n % 64]

/-- Fuel-indexed worker for percentToBytes; every step consumes at least
one input character and one unit of fuel, so fuel equal to the input
length never runs out. -/
def percentToBytesF : Nat → List Char → Option (List Nat)
  | _, [] => some []
  | 0, _ :: _ => none
  | fuel + 1, c :: rest =>
    if c = '%' then
      match rest with
      | a :: b :: rest2 =>
        match hexDigit a, hexDigit b with
        | some ha, some hb => (percentToBytesF fuel rest2).map fun bs => (16 * ha + hb) :: bs
        | _, _ => none
      | _ => none
    else (percentToBytesF fuel rest).map fun bs => charUtf8 c ++ bs

/-- Turn a string with percent-escapes into its byte sequence: each %HH
becomes the byte HH (failing on malformed escapes), every other character
contributes its UTF-8 bytes. -/
def percentToBytes (l : List Char) : Option (List Nat) :=
  percentToBytesF l.length l

/-- Fuel-indexed worker for utf8Decode; every step consumes at least one
input byte and one unit of fuel, so fuel equal to the input length never
runs out. -/
def utf8DecodeF : Nat → List Nat → Option (List Char)
  | _, [] => some []
  | 0, _ :: _ => none
  | fuel + 1, b :: rest =>
    if b < 128 then (utf8DecodeF fuel rest).map fun cs => Char.ofNat b :: cs
    else if b < 194 then none
    else if b < 224 then
      match rest with
      | b2 :: rest2 =>
        if 128 ≤ b2 ∧ b2 < 192 then
          (utf8DecodeF fuel rest2).map fun cs => Char.ofNat ((b - 192) * 64 + (b2 - 128)) :: cs
        else none
      | [] => none
    else if b < 240 then
      match rest with
      | b2 :: b3 :: rest3 =>
        if (128 ≤ b2 ∧ b2 < 192) ∧ (128 ≤ b3 ∧ b3 < 192) then
          let cp := (b - 224) * 4096 + (b2 - 128) * 64 + (b3 - 128)
          if 2048 ≤ cp ∧ (cp < 55296 ∨ 57344 ≤ cp) then
            (utf8DecodeF fuel rest3).map fun cs => Char.ofNat cp :: cs
          else none
        else none
      | _ => none
    else if b < 245 then
      match rest with
      | b2 :: b3 :: b4 :: rest4 =>
        if (128 ≤ b2 ∧ b2 < 192) ∧ (128 ≤ b3 ∧ b3 < 192) ∧ (128 ≤ b4 ∧ b4 < 192) then
          let cp := (b - 240) * 262144 + (b2 - 128) * 4096 + (b3 - 128) * 64 + (b4 - 128)
          if 65536 ≤ cp ∧ cp ≤ 1114111 then
            (utf8DecodeF fuel rest4).map fun cs => Char.ofNat cp :: cs
          else none
        else none
      | _ => none
    else none

/-- Strict UTF-8 decoding of a byte sequence, rejecting truncated,
overlong, surrogate and out-of-range sequences, as decodeURIComponent
does. -/
def utf8Decode (l : List Nat) : Option (List Char) :=
  utf8DecodeF l.length l

/-- Model of decodeURIComponent: percent-decode to bytes, then strict
UTF-8 decoding; none models a thrown URIError. -/
def decodeURIComponent (l : List Char) : Option (List Char) :=
  match percentToBytes l with
  | some bs => utf8Decode bs
  | none => none

/-- The try/catch around decodeURIComponent in mergeBcfs: keep the raw
capture when decoding throws. -/
def decodeOrRaw (cap : List Char) : List Char :=
  match decodeURIComponent cap with
  | some s => s
  | none => cap

/-- The suggested file name computed by mergeBcfs from the
Content-Disposition header value (empty string when the header is
absent): extended form first, plain form second, fixed default
merged.bcfzip otherwise. -/
def mergeFilename (disposition : String) : String :=
  match scan1 disposition.data with
  | some cap => String.mk (decodeOrRaw cap)
  | none =>
    match scan2 disposition.data with
    | some cap => String.mk (decodeOrRaw cap)
    | none => "merged.bcfzip"

/-- The generated timestamp-based name of handleMerge
(Issues.tsx line 59). -/
def timestampName (now : Nat) : String :=
  "merged-" ++ toString now ++ ".bcfzip"

/-- link.download = filename || merged-TIMESTAMP.bcfzip
(Issues.tsx line 59): the timestamp name is used only when the name from
mergeBcfs is the empty string. -/
def downloadName (filename : String) (now : Nat) : String :=
  if filename = "" then timestampName now else filename

theorem scan1_ne_nil : ∀ l cap, scan1 l = some cap → cap ≠ [] := by
  intro l
  induction l with
  | nil => intro cap h; simp [scan1] at h
  | cons c rest ih =>
    intro cap h
    simp only [scan1] at h
    cases hm : matchLit pat1 (c :: rest) with
    | some after =>
      rw [hm] at h
      by_cases he : (after.takeWhile fun ch => ch != ';').isEmpty
      · simp only [he, if_true] at h
        exact ih cap h
      · simp only [he, if_false] at h
        cases h
        intro hnil
        rw [hnil] at he
        simp at he
    | none =>
      rw [hm] at h
      exact ih cap h

theorem scan2_ne_nil : ∀ l cap, scan2 l = some cap → cap ≠ [] := by
  intro l
  induction l with
  | nil => intro cap h; simp [scan2] at h
  | cons c rest ih =>
    intro cap h
    simp only [scan2] at h
    cases hm : matchLit pat2 (c :: rest) with
    | some after =>
      rw [hm] at h
      by_cases he : (((match after with
          | q :: t => if q = quoteChar then t else q :: t
          | [] => []).takeWhile fun ch => ch != quoteChar && ch != ';')).isEmpty
      · simp only [he, if_true] at h
        exact ih cap h
      · simp only [he, if_false] at h
        cases h
        intro hnil
        rw [hnil] at he
        simp at he
    | none =>
      rw [hm] at h
      exact ih cap h

theorem charUtf8_ne_nil (c : Char) : charUtf8 c ≠ [] := by
  simp only [charUtf8]
  split
  · simp
  · split
    · simp
    · split
      · simp
      · simp

theorem percentToBytesF_cons_ne_nil (fuel : Nat) (c : Char) (rest : List Char) (bs : List Nat)
    (h : percentToBytesF (fuel + 1) (c :: rest) = some bs) : bs ≠ [] := by
  simp only [percentToBytesF] at h
  split at h
  · split at h
    · split at h
      · obtain ⟨bs2, hrec, hf⟩ := Option.map_eq_some'.mp h
        intro hnil
        rw [hnil] at hf
        simp at hf
      · simp at h
    · simp at h
  · obtain ⟨bs2, hrec, hf⟩ := Option.map_eq_some'.mp h
    intro hnil
    rw [hnil] at hf
    simp at hf
    exact charUtf8_ne_nil c hf.1

theorem percentToBytes_cons_ne_nil (c : Char) (rest : List Char) (bs : List Nat)
    (h : percentToBytes (c :: rest) = some bs) : bs ≠ [] := by
  simp only [percentToBytes, List.length_cons] at h
  exact percentToBytesF_cons_ne_nil rest.length c rest bs h

theorem utf8DecodeF_cons_ne_nil (fuel : Nat) (b : Nat) (rest : List Nat) (cs : List Char)
    (h : utf8DecodeF (fuel + 1) (b :: rest) = some cs) : cs ≠ [] := by
  simp only [utf8DecodeF] at h
  split at h
  · obtain ⟨cs2, hrec, hf⟩ := Option.map_eq_some'.mp h
    intro hnil
    rw [hnil] at hf
    simp at hf
  · split at h
    · simp at h
    · split at h
      · split at h
        · split at h
          · obtain ⟨cs2, hrec, hf⟩ := Option.map_eq_some'.mp h
            intro hnil
            rw [hnil] at hf
            simp at hf
          · simp at h
        · simp at h
      · split at h
        · split at h
          · split at h
            · split at h
              · obtain ⟨cs2, hrec, hf⟩ := Option.map_eq_some'.mp h
                intro hnil
                rw [hnil] at hf
                simp at hf
              · simp at h
            · simp at h
          · simp at h
        · split at h
          · split at h
            · split at h
              · split at h
                · obtain ⟨cs2, hrec, hf⟩ := Option.map_eq_some'.mp h
                  intro hnil
                  rw [hnil] at hf
                  simp at hf
                · simp at h
              · simp at h
            · simp at h
          · simp at h

theorem utf8Decode_cons_ne_nil (b : Nat) (rest : List Nat) (cs : List Char)
    (h : utf8Decode (b :: rest) = some cs) : cs ≠ [] := by
  simp only [utf8Decode, List.length_cons] at h
  exact utf8DecodeF_cons_ne_nil rest.length b rest cs h

theorem decodeOrRaw_ne_nil (cap : List Char) (h : cap ≠ []) : decodeOrRaw cap ≠ [] := by
  cases cap with
  | nil => exact absurd rfl h
  | cons c rest =>
    cases hp : percentToBytes (c :: rest) with
    | none => simp [decodeOrRaw, decodeURIComponent, hp]
    | some bs =>
      cases bs with
      | nil => exact absurd rfl (percentToBytes_cons_ne_nil c rest [] hp)
      | cons b bs2 =>
        cases hd : utf8Decode (b :: bs2) with
        | none => simp [decodeOrRaw, decodeURIComponent, hp, hd]
        | some cs =>
          have hcs := utf8Decode_cons_ne_nil b bs2 cs hd
          simpa [decodeOrRaw, decodeURIComponent, hp, hd] using hcs

theorem mergeFilename_ne_empty (d : String) : mergeFilename d ≠ "" := by
  unfold mergeFilename
  cases h1 : scan1 d.data with
  | some cap =>
    have hc := decodeOrRaw_ne_nil cap (scan1_ne_nil d.data cap h1)
    intro hcontra
    apply hc
    have := congrArg String.data hcontra
    simpa using this
  | none =>
    cases h2 : scan2 d.data with
    | some cap =>
      have hc := decodeOrRaw_ne_nil cap (scan2_ne_nil d.data cap h2)
      intro hcontra
      apply hc
      have := congrArg String.data hcontra
      simpa using this
    | none => decide

/-- Concrete header carrying both filename forms. -/
def hdrBoth : String :=
  "attachment; filename*=UTF-8" ++ String.mk [apos, apos]
    ++ "r%C3%A9port.bcfzip; filename=plain.bcfzip"

/-- Concrete header carrying only the quoted plain form. -/
def hdrPlain : String :=
  "attachment; filename=" ++ String.mk [quoteChar] ++ "plain.bcfzip" ++ String.mk [quoteChar]

/-- C8 (amended): the suggested download name prefers the extended UTF-8
filename form, falls back to the quoted-plain form, and when both are
absent uses the fixed default merged.bcfzip; because the name returned by
mergeBcfs is never empty, the timestamp-based fallback of handleMerge is
never used. The concrete conjuncts exercise the three branches, the
extended form winning over the plain form and being percent-decoded. -/
theorem mergeFilename_spec :
    (∀ d now, downloadName (mergeFilename d) now = mergeFilename d) ∧
    (∀ d cap, scan1 d.data = some cap → mergeFilename d = String.mk (decodeOrRaw cap)) ∧
    (∀ d cap, scan1 d.data = none → scan2 d.data = some cap →
      mergeFilename d = String.mk (decodeOrRaw cap)) ∧
    (∀ d, scan1 d.data = none → scan2 d.data = none → mergeFilename d = "merged.bcfzip") ∧
    mergeFilename hdrBoth = "réport.bcfzip" ∧
    mergeFilename hdrPlain = "plain.bcfzip" ∧
    mergeFilename "attachment; foo=bar" = "merged.bcfzip" := by
  refine ⟨?_, ?_, ?_, ?_, by decide, by decide, by decide⟩
  · intro d now
    simp [downloadName, mergeFilename_ne_empty d]
  · intro d cap h
    simp [mergeFilename, h]
  · intro d cap h1 h2
    simp [mergeFilename, h1, h2]
  · intro d h1 h2
    simp [mergeFilename, h1, h2]

/-- Witness for C8: both forms absent on a concrete header yields the
fixed default name. -/
theorem mergeFilename_spec_witness :
    mergeFilename "attachment; x=y" = "merged.bcfzip" :=
  mergeFilename_spec.2.2.2.1 "attachment; x=y" (by decide) (by decide)

/-- C8 counterexample: with both filename forms absent the suggested
download name is the fixed merged.bcfzip and not the generated
timestamp-based name (here with timestamp 42). -/
theorem mergeFilename_default_not_timestamp :
    downloadName (mergeFilename "attachment") 42 = "merged.bcfzip" ∧
    downloadName (mergeFilename "attachment") 42 ≠ timestampName 42 := by
  decide
